import Mathlib

/-!
# Verification of the image-processing dashboard (src/app.py)

A shallow embedding of the Streamlit image-processing application and proofs
about its observable behavior.  Conventions of the embedding:

* Pixel data of a decoded PIL image is a natural number per band (the 8-bit
  modes L, LA, RGB, RGBA).  Numpy arrays carry rational values; Python floats
  are modeled as exact rationals.
* The skimage sobel filter returns square roots, which are irrational; the
  embedding stores the squared magnitudes (sobelMagSq) in executable
  definitions, and theorems speak about Real.sqrt of those values.
* Python exceptions are modeled with Except String; the try block of the
  script becomes a function into Except, and the except handler a match.
* External library calls made by app.py (PIL decode and encode, cv2.cvtColor,
  skimage.filters.sobel, PIL ImageEnhance) are embedded following the
  behavior of those libraries on the inputs the application can pass them.
-/

/-- The PIL color modes relevant to the application: 8 bits per band. -/
inductive PMode
  | L
  | LA
  | RGB
  | RGBA
deriving DecidableEq, Repr

/-- Number of bands of a mode. -/
def PMode.channels : PMode → ℕ
  | .L => 1
  | .LA => 2
  | .RGB => 3
  | .RGBA => 4

/-- Index of the alpha band of a mode, when the mode has one. -/
def PMode.alphaBand : PMode → Option ℕ
  | .LA => some 1
  | .RGBA => some 3
  | _ => none

/-- A decoded PIL image: a mode and one natural number per pixel and band. -/
structure PILImage where
  mode : PMode
  h : ℕ
  w : ℕ
  val : Fin h → Fin w → Fin mode.channels → ℕ

/-- All bands of an 8-bit image fit in a byte. -/
def PILImage.uint8 (img : PILImage) : Prop := ∀ i j b, img.val i j b ≤ 255

/-- A 2-dimensional numpy array of rationals. -/
structure Grid2 where
  h : ℕ
  w : ℕ
  val : Fin h → Fin w → ℚ

/-- A 3-dimensional numpy array of rationals (trailing channel axis). -/
structure Grid3 where
  h : ℕ
  w : ℕ
  c : ℕ
  val : Fin h → Fin w → Fin c → ℚ

/-- A numpy array as it occurs in the application: 2- or 3-dimensional. -/
inductive NpArray
  | d2 : Grid2 → NpArray
  | d3 : Grid3 → NpArray

/-- The numpy shape attribute. -/
def NpArray.shape : NpArray → List ℕ
  | .d2 g => [g.h, g.w]
  | .d3 g => [g.h, g.w, g.c]

def NpArray.hgt : NpArray → ℕ
  | .d2 g => g.h
  | .d3 g => g.h

def NpArray.wid : NpArray → ℕ
  | .d2 g => g.w
  | .d3 g => g.w

/-- All entries are 8-bit sized values. -/
def NpArray.uint8 : NpArray → Prop
  | .d2 g => ∀ i j, 0 ≤ g.val i j ∧ g.val i j ≤ 255
  | .d3 g => ∀ i j k, 0 ≤ g.val i j k ∧ g.val i j k ≤ 255

/-- A 3-dimensional array has a channel count cv2.cvtColor accepts. -/
def NpArray.channelsOK : NpArray → Prop
  | .d2 _ => True
  | .d3 g => g.c = 3 ∨ g.c = 4

/-- Row-major list of the entries of a 2-dimensional array. -/
def Grid2.entries (g : Grid2) : List ℚ :=
  (List.finRange g.h).flatMap fun i => (List.finRange g.w).map (g.val i)

/-- Row-major list of the entries of a 3-dimensional array. -/
def Grid3.entries (g : Grid3) : List ℚ :=
  (List.finRange g.h).flatMap fun i =>
    (List.finRange g.w).flatMap fun j => (List.finRange g.c).map (g.val i j)

def NpArray.entries : NpArray → List ℚ
  | .d2 g => g.entries
  | .d3 g => g.entries

/-- numpy max over all entries (the application only calls it on nonempty
    arrays; an empty list yields the junk value 0). -/
def listMax : List ℚ → ℚ
  | [] => 0
  | x :: xs => xs.foldl max x

/-- Executable floor of a rational: Int division is Euclidean division, which
    is floor division for the positive denominator. -/
def qfloor (q : ℚ) : ℤ := q.num / q.den

theorem qfloor_eq_floor (q : ℚ) : qfloor q = ⌊q⌋ := Rat.floor_def.symm

/-- Truncation toward zero: the semantics of casting a float to an integer
    type in C, hence of numpy astype. -/
def qtrunc (q : ℚ) : ℤ := if 0 ≤ q then qfloor q else -qfloor (-q)

/-- numpy astype(np.uint8) on a float value: truncate toward zero and wrap
    modulo 256. -/
def npU8 (q : ℚ) : ℕ := (qtrunc q % 256).toNat

/-- np.array(image) on a decoded PIL image: mode L gives a 2-dimensional
    array of shape (H, W); every multi-band mode gives shape (H, W, bands). -/
def toNpArray (img : PILImage) : NpArray :=
  if hm : img.mode = .L then
    .d2 ⟨img.h, img.w, fun i j => (img.val i j ⟨0, by rw [hm]; decide⟩ : ℚ)⟩
  else
    .d3 ⟨img.h, img.w, img.mode.channels, fun i j b => (img.val i j b : ℚ)⟩

/-- The OpenCV RGB to gray weighting on 8-bit values, in the fixed-point
    arithmetic cv2 uses: y = (r*4899 + g*9617 + b*1868 + 8192) >> 14, a
    rounded version of 0.299 r + 0.587 g + 0.114 b. -/
def yU8 (r g b : ℚ) : ℚ :=
  ((qfloor ((r * 4899 + g * 9617 + b * 1868 + 8192) / 16384) : ℤ) : ℚ)

/-- cv2.cvtColor(arr, cv2.COLOR_RGB2GRAY): accepts 3- or 4-channel input (the
    alpha channel of an RGBA array is ignored) and raises otherwise. -/
def cvtColorRGB2GRAY (g : Grid3) : Except String Grid2 :=
  if hc : g.c = 3 ∨ g.c = 4 then
    .ok ⟨g.h, g.w, fun i j =>
      yU8 (g.val i j ⟨0, by rcases hc with h | h <;> omega⟩)
          (g.val i j ⟨1, by rcases hc with h | h <;> omega⟩)
          (g.val i j ⟨2, by rcases hc with h | h <;> omega⟩)⟩
  else .error "cvtColor: invalid number of channels in input image"

/-- The gray reduction pattern the script repeats at lines 100-103 (Grayscale
    branch), 107-110 (Edge Detection branch) and 157-164 (statistics): a
    3-dimensional array goes through cv2.cvtColor(..., COLOR_RGB2GRAY), a
    2-dimensional array passes through unchanged. -/
def reduceToGray : NpArray → Except String Grid2
  | .d2 g => .ok g
  | .d3 g => cvtColorRGB2GRAY g

/-- Lines 100-103: the Grayscale branch computing processed_img. -/
def grayscalePolicy : NpArray → Except String NpArray
  | .d2 g => .ok (.d2 g)
  | .d3 g => (cvtColorRGB2GRAY g).map .d2

/-- Byte n of the row-major byte buffer (tobytes) of an (h, w, c) uint8
    array: flat position n holds entry (n / (w*c), (n % (w*c)) / c, n % c).
    Positions outside the buffer give the junk value 0; the raw decoder
    never reads them when the buffer is long enough. -/
def flatByte (h w c : ℕ) (u : Fin h → Fin w → Fin c → ℕ) (n : ℕ) : ℕ :=
  if hb : n / (w * c) < h ∧ (n % (w * c)) / c < w ∧ n % c < c then
    u ⟨n / (w * c), hb.1⟩ ⟨(n % (w * c)) / c, hb.2.1⟩ ⟨n % c, hb.2.2⟩
  else 0

/-- Lines 15-22, convert_array_to_pil(img_array, mode): a 2-dimensional array
    becomes an L image and anything else is handed to Image.fromarray with
    the hard-coded string RGB; the mode parameter is never read.  In each
    branch the array is multiplied by 255 when its maximum is at most 1 and
    cast to uint8 either way.  Image.fromarray with an explicit target mode
    feeds the byte buffer of the array to the raw RGB decoder, which reads 3
    bytes per output pixel sequentially, silently ignores surplus trailing
    bytes (so a trailing axis longer than 3 yields a channel-shifted RGB
    image), and raises (not enough image data) only when the buffer runs out
    before the image is filled, i.e. for a nonempty array with fewer than 3
    channels. -/
def convert_array_to_pil (img_array : NpArray) (mode : PMode) : Except String PILImage :=
  match img_array with
  | .d2 g =>
      let u : Fin g.h → Fin g.w → ℕ :=
        if listMax (NpArray.entries (.d2 g)) ≤ 1 then fun i j => npU8 (g.val i j * 255)
        else fun i j => npU8 (g.val i j)
      .ok { mode := .L, h := g.h, w := g.w, val := fun i j _ => u i j }
  | .d3 g =>
      let u : Fin g.h → Fin g.w → Fin g.c → ℕ :=
        if listMax (NpArray.entries (.d3 g)) ≤ 1 then fun i j k => npU8 (g.val i j k * 255)
        else fun i j k => npU8 (g.val i j k)
      if 3 * (g.h * g.w) ≤ g.h * g.w * g.c then
        .ok { mode := .RGB, h := g.h, w := g.w,
              val := fun i j b => flatByte g.h g.w g.c u (3 * (i.val * g.w + j.val) + b.val) }
      else .error "not enough image data"

/-- One 8-bit band through the PIL ImagingBlend kernel that implements
    Image.blend: temp = in1 + alpha * (in2 - in1), clipped to [0, 255] and
    cast (truncated) to UINT8. -/
def blendPix (alpha : ℚ) (in1 in2 : ℕ) : ℕ :=
  let temp : ℚ := (in1 : ℚ) + alpha * ((in2 : ℚ) - (in1 : ℚ))
  if temp ≤ 0 then 0
  else if 255 ≤ temp then 255
  else (qtrunc temp).toNat

/-- Lines 115-116, ImageEnhance.Brightness(image).enhance(factor): blend the
    image with a black degenerate image of the same mode; the degenerate
    image keeps the alpha channel of the original, so alpha bands come out
    unchanged.  Mode and size are preserved. -/
def enhanceBrightness (img : PILImage) (factor : ℚ) : PILImage :=
  { mode := img.mode, h := img.h, w := img.w,
    val := fun i j b =>
      let degenerate : ℕ := if img.mode.alphaBand = some b.val then img.val i j b else 0
      blendPix factor degenerate (img.val i j b) }

/-- Reflect boundary handling of scipy.ndimage for a radius-1 kernel: an
    index one step outside the array repeats the edge sample, so indices
    clamp into [0, n-1]. -/
def clampIdx (n : ℕ) (i : ℤ) : ℕ := min (max i 0).toNat (n - 1)

theorem clampIdx_lt {n : ℕ} (hn : 0 < n) (i : ℤ) : clampIdx n i < n :=
  Nat.lt_of_le_of_lt (Nat.min_le_right _ _) (by omega)

/-- Sample a 2-dimensional array with reflect boundary handling; the junk
    value 0 is returned for an empty array (the filter output of an empty
    array has no entries anyway). -/
def Grid2.getReflect (g : Grid2) (i j : ℤ) : ℚ :=
  if h : 0 < g.h ∧ 0 < g.w then
    g.val ⟨clampIdx g.h i, clampIdx_lt h.1 i⟩ ⟨clampIdx g.w j, clampIdx_lt h.2 j⟩
  else 0

/-- skimage img_as_float on a uint8 array: divide by 255 into [0, 1]. -/
def imgAsFloat (g : Grid2) : Grid2 := ⟨g.h, g.w, fun i j => g.val i j / 255⟩

/-- The skimage sobel smoothing kernel [1, 2, 1] / 4 applied along axis 1. -/
def smooth1 (g : Grid2) (i j : ℤ) : ℚ :=
  (g.getReflect i (j - 1) + 2 * g.getReflect i j + g.getReflect i (j + 1)) / 4

/-- The skimage sobel smoothing kernel [1, 2, 1] / 4 applied along axis 0. -/
def smooth0 (g : Grid2) (i j : ℤ) : ℚ :=
  (g.getReflect (i - 1) j + 2 * g.getReflect i j + g.getReflect (i + 1) j) / 4

/-- The sobel edge kernel [1, 0, -1] along axis 0 composed with smoothing
    along axis 1 (the sign convention of the convolution does not matter for
    the magnitude). -/
def sobelAxis0 (g : Grid2) (i j : ℤ) : ℚ := smooth1 g (i + 1) j - smooth1 g (i - 1) j

/-- The sobel edge kernel along axis 1 composed with smoothing along axis 0. -/
def sobelAxis1 (g : Grid2) (i j : ℤ) : ℚ := smooth0 g i (j + 1) - smooth0 g i (j - 1)

/-- Square of the skimage.filters.sobel output on a uint8 gray image: the
    filter converts to floats in [0, 1], filters along both axes and returns
    sqrt((h^2 + v^2) / 2).  The embedding stores this squared value so that
    definitions stay rational and executable; the float the library returns
    at (i, j) is Real.sqrt of it. -/
def sobelMagSq (g : Grid2) (i j : ℤ) : ℚ :=
  (sobelAxis0 (imgAsFloat g) i j ^ 2 + sobelAxis1 (imgAsFloat g) i j ^ 2) / 2

/-- Line 111, filters.sobel(gray_img) as a whole array: same shape as the
    input, entries the squared magnitudes (see sobelMagSq). -/
def sobelMagSqGrid (g : Grid2) : Grid2 := ⟨g.h, g.w, fun i j => sobelMagSq g i j⟩

/-- Channel count written by img.save(buffer, format="JPEG"): JPEG has no
    alpha support, and PIL raises OSError for RGBA or LA input. -/
def jpegSaveChannels : PMode → Except String ℕ
  | .L => .ok 1
  | .RGB => .ok 3
  | .LA => .error "cannot write mode LA as JPEG"
  | .RGBA => .error "cannot write mode RGBA as JPEG"

/-- Channel count written by img.save(buffer, format="PNG"): PNG stores all
    four modeled modes unchanged. -/
def pngSaveChannels (m : PMode) : Except String ℕ := .ok m.channels

/-- Lines 138-143: the JPEG download first converts an RGBA processed image
    to RGB (dropping alpha) and then encodes; the result is the channel
    count the encoded bytes decode back to. -/
def jpegDownload (processed_pil : PILImage) : Except String ℕ :=
  jpegSaveChannels (if processed_pil.mode = .RGBA then .RGB else processed_pil.mode)

/-- np.mean over a 2-dimensional array. -/
def npMean (g : Grid2) : ℚ := g.entries.sum / g.entries.length

/-- The variance np.var; np.std, the displayed contrast, is its square
    root. -/
def npVar (g : Grid2) : ℚ :=
  (g.entries.map fun x => (x - npMean g) ^ 2).sum / g.entries.length

/-- The selector of line 73: one of four fixed processing modes. -/
inductive ProcessType
  | Original
  | Grayscale
  | EdgeDetection
  | BrightnessAdjustment
deriving DecidableEq, Repr

/-- Line 174: the processed-image statistics column renders only when the
    selected mode is not Original. -/
def showProcessedStats (process_type : ProcessType) : Bool :=
  process_type ≠ .Original

/-- An uploaded file, by what Image.open does with its bytes: either it
    decodes to an image or the decoder raises with some description. -/
inductive Upload
  | valid (img : PILImage)
  | undecodable (description : String)

/-- Line 48, Image.open(uploaded_file): the decoded image, or the raised
    decode error. -/
def decodeUpload : Upload → Except String PILImage
  | .valid img => .ok img
  | .undecodable d => .error d

/-- The observable outcome of one successful pass through the try block. -/
structure RunOutput where
  processedMode : PMode
  pngChannels : Option ℕ
  jpegChannels : Option ℕ
  origGray : Grid2
  procGray : Grid2
  procStatsShown : Bool

/-- Lines 46-177, the body of the try block: decode, dispatch on the selected
    mode, offer downloads when the mode is not Original, and reduce both
    arrays for the statistics section.  Any failure propagates out as the
    Except error. -/
def pipelineRun (uploaded : Upload) (process_type : ProcessType)
    (brightness_factor : ℚ) : Except String RunOutput := do
  let image ← decodeUpload uploaded
  let img_array := toNpArray image
  let result : PILImage × NpArray ←
    match process_type with
    | .Original => .ok (image, img_array)
    | .Grayscale => do
        let processed_img ← grayscalePolicy img_array
        let processed_pil ← convert_array_to_pil processed_img .L
        .ok (processed_pil, processed_img)
    | .EdgeDetection => do
        let gray_img ← reduceToGray img_array
        let processed_img := NpArray.d2 (sobelMagSqGrid gray_img)
        let processed_pil ← convert_array_to_pil processed_img .L
        .ok (processed_pil, processed_img)
    | .BrightnessAdjustment => do
        let processed_pil := enhanceBrightness image brightness_factor
        .ok (processed_pil, toNpArray processed_pil)
  let processed_pil := result.1
  let processed_img := result.2
  let downloads : Option (ℕ × ℕ) ←
    if process_type = .Original then .ok none
    else do
      let png ← pngSaveChannels processed_pil.mode
      let jpg ← jpegDownload processed_pil
      .ok (some (png, jpg))
  let gray_for_stats ← reduceToGray img_array
  let processed_gray ← reduceToGray processed_img
  .ok { processedMode := processed_pil.mode,
        pngChannels := downloads.map Prod.fst,
        jpegChannels := downloads.map Prod.snd,
        origGray := gray_for_stats,
        procGray := processed_gray,
        procStatsShown := showProcessedStats process_type }

/-- What one interaction renders. -/
inductive Render
  | emptyState (message : String)
  | page (output : RunOutput)
  | errorView (message hint : String)

/-- The top level of the script: lines 45-184.  With no upload the page shows
    the starting hint; otherwise the try block runs and its failure, if any,
    is caught by the single except handler at lines 179-181, which renders
    the error description together with the fixed recovery hint. -/
def renderApp : Option (Upload × ProcessType × ℚ) → Render
  | none => .emptyState "Please upload an image to get started!"
  | some (u, pt, f) =>
      match pipelineRun u pt f with
      | .ok o => .page o
      | .error e =>
          .errorView ("Error processing image: " ++ e)
            "Please try uploading a different image or check the file format."

/-- The reactive execution model: every interaction reruns the whole script
    from scratch, with no state carried over. -/
def runSession (interactions : List (Option (Upload × ProcessType × ℚ))) :
    List Render :=
  interactions.map renderApp

/-! ## Helper lemmas and concrete data -/

theorem okBind {α β : Type} (a : α) (f : α → Except String β) :
    (Except.ok a : Except String α) >>= f = f a := rfl

theorem errBind {α β : Type} (e : String) (f : α → Except String β) :
    (Except.error e : Except String α) >>= f = .error e := rfl

theorem foldl_max_le {c : ℚ} :
    ∀ (l : List ℚ) (a : ℚ), a ≤ c → (∀ x ∈ l, x ≤ c) → l.foldl max a ≤ c
  | [], _, ha, _ => ha
  | x :: xs, a, ha, h =>
      foldl_max_le xs (max a x) (max_le ha (h x (List.mem_cons_self x xs)))
        fun y hy => h y (List.mem_cons_of_mem x hy)

theorem listMax_le {c : ℚ} (hc : 0 ≤ c) (l : List ℚ) (h : ∀ x ∈ l, x ≤ c) :
    listMax l ≤ c := by
  cases l with
  | nil => exact hc
  | cons x xs =>
      exact foldl_max_le xs x (h x (List.mem_cons_self x xs))
        fun y hy => h y (List.mem_cons_of_mem x hy)

/-- Decomposition of the flat byte position the raw RGB decoder reads for
    output pixel (i, j), band b, when the trailing axis has length 3. -/
theorem flatIdx_c3 (w i j b : ℕ) (hj : j < w) (hb : b < 3) :
    (3 * (i * w + j) + b) / (w * 3) = i ∧
    ((3 * (i * w + j) + b) % (w * 3)) / 3 = j ∧
    (3 * (i * w + j) + b) % 3 = b := by
  have e : 3 * (i * w + j) + b = (w * 3) * i + (j * 3 + b) := by ring
  have hlt : j * 3 + b < w * 3 := by omega
  refine ⟨?_, ?_, ?_⟩
  · rw [e, Nat.mul_add_div (by omega : 0 < w * 3), Nat.div_eq_of_lt hlt, Nat.add_zero]
  · rw [e, Nat.mul_add_mod, Nat.mod_eq_of_lt hlt]
    omega
  · rw [e, show (w * 3) * i + (j * 3 + b) = 3 * (w * i + j) + b from by ring,
      Nat.mul_add_mod]
    exact Nat.mod_eq_of_lt hb

/-- For a 3-channel array the raw decoder reproduces the array entries. -/
theorem flatByte_c3 (h w : ℕ) (u : Fin h → Fin w → Fin 3 → ℕ)
    (i : Fin h) (j : Fin w) (b : Fin 3) :
    flatByte h w 3 u (3 * (i.val * w + j.val) + b.val) = u i j b := by
  obtain ⟨e1, e2, e3⟩ := flatIdx_c3 w i.val j.val b.val j.isLt b.isLt
  have hcond : (3 * (i.val * w + j.val) + b.val) / (w * 3) < h ∧
      ((3 * (i.val * w + j.val) + b.val) % (w * 3)) / 3 < w ∧
      (3 * (i.val * w + j.val) + b.val) % 3 < 3 := by
    refine ⟨?_, ?_, ?_⟩
    · rw [e1]; exact i.isLt
    · rw [e2]; exact j.isLt
    · rw [e3]; exact b.isLt
  unfold flatByte
  rw [dif_pos hcond]
  have fi : (⟨(3 * (i.val * w + j.val) + b.val) / (w * 3), hcond.1⟩ : Fin h) = i :=
    Fin.ext e1
  have fj : (⟨((3 * (i.val * w + j.val) + b.val) % (w * 3)) / 3, hcond.2.1⟩ : Fin w) = j :=
    Fin.ext e2
  have fb : (⟨(3 * (i.val * w + j.val) + b.val) % 3, hcond.2.2⟩ : Fin 3) = b :=
    Fin.ext e3
  rw [fi, fj, fb]

/-- A 1 by 1 RGBA image, all bands zero. -/
def rgbaOnePix : PILImage := ⟨.RGBA, 1, 1, fun _ _ _ => 0⟩

/-- A 2 by 2 full-white L image. -/
def demoGrayImg : PILImage := ⟨.L, 2, 2, fun _ _ _ => 255⟩

/-- A 1 by 1 by 2 array: the shape np.array gives an LA source. -/
def laGrid : Grid3 := ⟨1, 1, 2, fun _ _ _ => 0⟩

/-- A concrete 1 by 1 by 3 uint8 array. -/
def demoGrid3 : Grid3 := ⟨1, 1, 3, fun _ _ k => (k : ℚ)⟩

/-- A 1 by 1 by 4 array: the shape np.array gives an RGBA source. -/
def rgba11Grid : Grid3 := ⟨1, 1, 4, fun _ _ _ => 0⟩

/-- A concrete all-zero 2 by 2 array. -/
def zeroGrid2 : Grid2 := ⟨2, 2, fun _ _ => 0⟩

/-! ## C2: shape of the derived pixel array -/

/-- C2 as stated is false on the code: for an RGBA source, np.array of the
    decoded image keeps all four channels, so the derived array has shape
    (H, W, 4), not (H, W, 3). -/
theorem claim_C2_cex :
    ¬ ∀ img : PILImage,
        (toNpArray img).shape = [img.h, img.w] ∨
          (toNpArray img).shape = [img.h, img.w, 3] := by
  intro h
  rcases h rgbaOnePix with h1 | h1 <;> exact absurd h1 (by decide)

/-- C2 amended: the derived pixel array has shape (H, W) exactly for a
    single-channel (mode L) source and shape (H, W, C) with C the source
    channel count otherwise; in particular an RGBA source yields a trailing
    axis of length 4. -/
theorem claim_C2_amended (img : PILImage) :
    (toNpArray img).shape =
      if img.mode = .L then [img.h, img.w]
      else [img.h, img.w, img.mode.channels] := by
  by_cases hm : img.mode = .L <;> simp [toNpArray, hm, NpArray.shape]

/-! ## C10: convert_array_to_pil ignores its mode parameter -/

/-- C10 as stated is false on the code in one respect: a nonempty
    3-dimensional array whose trailing axis is shorter than 3 does not
    become an RGB image; the Image.fromarray call with target mode RGB runs
    out of data and raises instead (here on a (1, 1, 2)-shaped array with
    mode L requested). -/
theorem claim_C10_cex :
    ¬ ∀ a : Grid3, ∃ p,
        convert_array_to_pil (.d3 a) .L = .ok p ∧ p.mode = .RGB := by
  intro h
  obtain ⟨p, hp, -⟩ := h laGrid
  exact Except.noConfusion hp

/-- C10 amended: the conversion ignores its mode parameter entirely and
    picks the output mode from the dimensionality of the array alone: a
    2-dimensional array always becomes an L image, and a 3-dimensional array
    is always converted as RGB — any trailing axis of length at least 3
    yields an RGB image even when the caller requested L (the raw decoder
    reads 3 bytes per output pixel and silently ignores surplus channel
    bytes, so lengths above 3 give a channel-shifted image), while a
    nonempty 3-dimensional array with a trailing axis shorter than 3 raises
    (not enough image data). -/
theorem claim_C10_amended :
    (∀ (a : NpArray) (m m2 : PMode),
      convert_array_to_pil a m = convert_array_to_pil a m2) ∧
    (∀ (g : Grid2) (m : PMode), ∃ p,
      convert_array_to_pil (.d2 g) m = .ok p ∧ p.mode = .L) ∧
    (∀ (g : Grid3) (m : PMode), 3 ≤ g.c → ∃ p,
      convert_array_to_pil (.d3 g) m = .ok p ∧ p.mode = .RGB) ∧
    (∀ (g : Grid3) (m : PMode), g.c < 3 → 0 < g.h * g.w → ∃ e,
      convert_array_to_pil (.d3 g) m = .error e) := by
  refine ⟨fun a m m2 => rfl, fun g m => ⟨_, rfl, rfl⟩,
    fun g m hge => ?_, fun g m hlt hp => ?_⟩
  · simp only [convert_array_to_pil]
    rw [if_pos (by
      calc 3 * (g.h * g.w) = g.h * g.w * 3 := by ring
        _ ≤ g.h * g.w * g.c := Nat.mul_le_mul (Nat.le_refl _) hge)]
    exact ⟨_, rfl, rfl⟩
  · simp only [convert_array_to_pil]
    rw [if_neg (by
      have step1 : g.h * g.w * g.c ≤ g.h * g.w * 2 :=
        Nat.mul_le_mul (Nat.le_refl _) (by omega)
      omega)]
    exact ⟨_, rfl⟩

theorem claim_C10_witness :
    (∃ p, convert_array_to_pil (.d3 demoGrid3) .L = .ok p ∧ p.mode = .RGB) ∧
    (∃ p, convert_array_to_pil (.d3 rgba11Grid) .L = .ok p ∧ p.mode = .RGB) ∧
    (∃ e, convert_array_to_pil (.d3 laGrid) .L = .error e) :=
  ⟨claim_C10_amended.2.2.1 demoGrid3 .L (by decide),
   claim_C10_amended.2.2.1 rgba11Grid .L (by decide),
   claim_C10_amended.2.2.2 laGrid .L (by decide) (by decide)⟩

/-! ## C3: the uniform numeric conversion rule -/

/-- C3: on every conversion of a numeric array into an image — the
    2-dimensional and the 3-dimensional branch alike — each stored pixel is
    the uint8 cast of the value multiplied by 255 when the array maximum is
    at most 1, and the uint8 cast of the raw value otherwise; and an
    all-zero array passes the maximum test, so it is classified as
    normalized. -/
theorem claim_C3_conversion_rule :
    (∀ (g : Grid2) (m : PMode),
      convert_array_to_pil (.d2 g) m =
        .ok { mode := .L, h := g.h, w := g.w,
              val := fun i j _ =>
                if listMax (NpArray.entries (.d2 g)) ≤ 1 then npU8 (g.val i j * 255)
                else npU8 (g.val i j) }) ∧
    (∀ (g : Grid3) (m : PMode) (h3 : g.c = 3),
      convert_array_to_pil (.d3 g) m =
        .ok { mode := .RGB, h := g.h, w := g.w,
              val := fun i j b =>
                if listMax (NpArray.entries (.d3 g)) ≤ 1 then
                  npU8 (g.val i j ⟨b.val, by rw [h3]; exact b.isLt⟩ * 255)
                else npU8 (g.val i j ⟨b.val, by rw [h3]; exact b.isLt⟩) }) ∧
    (∀ g : Grid2, (∀ i j, g.val i j = 0) →
      listMax (NpArray.entries (.d2 g)) ≤ 1) := by
  refine ⟨fun g m => ?_, fun g m h3 => ?_, fun g hz => ?_⟩
  · by_cases hcond : listMax (NpArray.entries (.d2 g)) ≤ 1 <;>
      simp [convert_array_to_pil, hcond]
  · obtain ⟨gh, gw, gc, gv⟩ := g
    replace h3 : gc = 3 := h3
    subst h3
    simp only [convert_array_to_pil]
    rw [if_pos (le_of_eq (by ring : 3 * (gh * gw) = gh * gw * 3))]
    by_cases hcond : listMax (NpArray.entries (.d3 ⟨gh, gw, 3, gv⟩)) ≤ 1 <;>
      simp only [hcond, if_true, if_false] <;>
      exact congrArg (fun v => Except.ok (PILImage.mk .RGB gh gw v))
        (funext fun i => funext fun j => funext fun b => flatByte_c3 gh gw _ i j b)
  · refine listMax_le (by norm_num) _ ?_
    intro x hx
    simp only [NpArray.entries, Grid2.entries, List.mem_flatMap, List.mem_map] at hx
    obtain ⟨i, -, j, -, rfl⟩ := hx
    rw [hz i j]
    norm_num

theorem claim_C3_witness :
    convert_array_to_pil (.d3 demoGrid3) .L =
      .ok { mode := .RGB, h := demoGrid3.h, w := demoGrid3.w,
            val := fun i j b =>
              if listMax (NpArray.entries (.d3 demoGrid3)) ≤ 1 then
                npU8 (demoGrid3.val i j ⟨b.val, b.isLt⟩ * 255)
              else npU8 (demoGrid3.val i j ⟨b.val, b.isLt⟩) } ∧
    listMax (NpArray.entries (.d2 zeroGrid2)) ≤ 1 :=
  ⟨claim_C3_conversion_rule.2.1 demoGrid3 .L rfl,
    claim_C3_conversion_rule.2.2 zeroGrid2 fun _ _ => rfl⟩

/-! ## C6: the Grayscale policy is idempotent -/

/-- C6: composing the Grayscale branch with itself changes nothing, because a
    single-channel (2-dimensional) array passes through the branch unchanged;
    in particular grayscale(grayscale X) = grayscale X for every pixel array,
    errors included. -/
theorem claim_C6_grayscale_idempotent :
    (∀ a : NpArray, (grayscalePolicy a).bind grayscalePolicy = grayscalePolicy a) ∧
    (∀ g : Grid2, grayscalePolicy (.d2 g) = .ok (.d2 g)) := by
  refine ⟨fun a => ?_, fun g => rfl⟩
  cases a with
  | d2 g => rfl
  | d3 g =>
      cases hc : cvtColorRGB2GRAY g with
      | error e => simp [grayscalePolicy, hc, Except.map, Except.bind]
      | ok g2 => simp [grayscalePolicy, hc, Except.map, Except.bind]

/-! ## C4 and C5: brightness adjustment -/

theorem blendPix_le_255 (alpha : ℚ) (in1 in2 : ℕ) : blendPix alpha in1 in2 ≤ 255 := by
  simp only [blendPix]
  split
  · exact Nat.zero_le _
  · split
    · exact le_refl _
    · rename_i h0 h255
      have ht0 : (0 : ℚ) ≤ (in1 : ℚ) + alpha * ((in2 : ℚ) - (in1 : ℚ)) :=
        le_of_lt (not_le.mp h0)
      rw [qtrunc, if_pos ht0, qfloor_eq_floor]
      have hlt : ⌊(in1 : ℚ) + alpha * ((in2 : ℚ) - (in1 : ℚ))⌋ < 256 := by
        refine Int.floor_lt.mpr ?_
        have := not_le.mp h255
        push_cast
        linarith
      exact Int.toNat_le.mpr (by omega)

/-- C4: for every image and brightness factor in [0.1, 3.0], every band of
    every pixel of the ImageEnhance.Brightness output lies in [0, 255]. -/
theorem claim_C4_brightness_range (img : PILImage) (factor : ℚ)
    (hf : 1/10 ≤ factor ∧ factor ≤ 3) (h8 : img.uint8)
    (i : Fin img.h) (j : Fin img.w) (b : Fin img.mode.channels) :
    0 ≤ (enhanceBrightness img factor).val i j b ∧
      (enhanceBrightness img factor).val i j b ≤ 255 :=
  ⟨Nat.zero_le _, blendPix_le_255 _ _ _⟩

theorem claim_C4_witness :
    0 ≤ (enhanceBrightness demoGrayImg 3).val ⟨0, by decide⟩ ⟨0, by decide⟩ ⟨0, by decide⟩ ∧
      (enhanceBrightness demoGrayImg 3).val ⟨0, by decide⟩ ⟨0, by decide⟩ ⟨0, by decide⟩ ≤ 255 :=
  claim_C4_brightness_range demoGrayImg 3 (by norm_num)
    (fun _ _ _ => Nat.le_refl 255) ⟨0, by decide⟩ ⟨0, by decide⟩ ⟨0, by decide⟩

theorem blendPix_one (in1 in2 : ℕ) (h : in2 ≤ 255) : blendPix 1 in1 in2 = in2 := by
  have ht : (in1 : ℚ) + 1 * ((in2 : ℚ) - (in1 : ℚ)) = (in2 : ℚ) := by ring
  simp only [blendPix, ht]
  by_cases h0 : (in2 : ℚ) ≤ 0
  · rw [if_pos h0]
    have : (in2 : ℚ) = 0 := le_antisymm h0 (Nat.cast_nonneg in2)
    exact_mod_cast this.symm
  · rw [if_neg h0]
    by_cases h255 : (255 : ℚ) ≤ (in2 : ℚ)
    · rw [if_pos h255]
      have : 255 ≤ in2 := by exact_mod_cast h255
      omega
    · rw [if_neg h255, qtrunc, if_pos (Nat.cast_nonneg in2), qfloor_eq_floor,
        Int.floor_natCast]
      exact Int.toNat_natCast in2

/-- C5: brightness adjustment with factor exactly 1.0 is the identity: same
    mode, same size, and every band of every pixel unchanged. -/
theorem claim_C5_brightness_identity (img : PILImage) (h8 : img.uint8) :
    (enhanceBrightness img 1).mode = img.mode ∧
    (enhanceBrightness img 1).h = img.h ∧
    (enhanceBrightness img 1).w = img.w ∧
    ∀ i j b, (enhanceBrightness img 1).val i j b = img.val i j b :=
  ⟨rfl, rfl, rfl, fun i j b => blendPix_one _ _ (h8 i j b)⟩

theorem claim_C5_witness :
    (enhanceBrightness demoGrayImg 1).val ⟨0, by decide⟩ ⟨0, by decide⟩ ⟨0, by decide⟩ =
      demoGrayImg.val ⟨0, by decide⟩ ⟨0, by decide⟩ ⟨0, by decide⟩ :=
  (claim_C5_brightness_identity demoGrayImg fun _ _ _ => Nat.le_refl 255).2.2.2
    ⟨0, by decide⟩ ⟨0, by decide⟩ ⟨0, by decide⟩

/-! ## C8: statistics over the gray-reduced arrays -/

/-- Binding a success just applies the continuation (Except.bind form). -/
theorem okBindE {α β : Type} (a : α) (f : α → Except String β) :
    Except.bind (Except.ok a) f = f a := rfl

/-- Binding an error propagates it (Except.bind form). -/
theorem errBindE {α β : Type} (e : String) (f : α → Except String β) :
    Except.bind (Except.error e) f = .error e := rfl

/-- The Original pass through the pipeline: no downloads, and both statistics
    arrays come from the same gray reduction of the unmodified array. -/
theorem pipelineRun_original_eq (u : Upload) (f : ℚ) :
    pipelineRun u .Original f =
      (decodeUpload u).bind fun image =>
        (reduceToGray (toNpArray image)).bind fun g =>
          Except.ok { processedMode := image.mode, pngChannels := none,
                      jpegChannels := none, origGray := g, procGray := g,
                      procStatsShown := showProcessedStats .Original } := by
  cases u with
  | undecodable d => rfl
  | valid image =>
      simp only [pipelineRun, decodeUpload, okBind, okBindE]
      cases reduceToGray (toNpArray image) with
      | error e => rfl
      | ok g => rfl

/-- C8: the statistics section reduces the arrays with exactly the reduction
    the Grayscale policy uses; the processed-image statistics render only
    when the selected mode is not Original; and an Original pass yields a
    processed statistics array identical to the original one, hence the same
    mean and the same standard deviation (np.std being the square root of
    npVar). -/
theorem claim_C8_statistics :
    (∀ a : NpArray, grayscalePolicy a = (reduceToGray a).map NpArray.d2) ∧
    (showProcessedStats .Original = false ∧ showProcessedStats .Grayscale = true ∧
      showProcessedStats .EdgeDetection = true ∧
      showProcessedStats .BrightnessAdjustment = true) ∧
    (∀ (u : Upload) (f : ℚ),
      (pipelineRun u .Original f).map RunOutput.procGray =
        (pipelineRun u .Original f).map RunOutput.origGray ∧
      (pipelineRun u .Original f).map (fun o => npMean o.procGray) =
        (pipelineRun u .Original f).map (fun o => npMean o.origGray) ∧
      (pipelineRun u .Original f).map (fun o => Real.sqrt (npVar o.procGray : ℝ)) =
        (pipelineRun u .Original f).map (fun o => Real.sqrt (npVar o.origGray : ℝ)) ∧
      (pipelineRun u .Original f).map RunOutput.procStatsShown =
        (pipelineRun u .Original f).map fun _ => false) := by
  refine ⟨fun a => ?_, ⟨rfl, rfl, rfl, rfl⟩, fun u f => ?_⟩
  · cases a with
    | d2 g => rfl
    | d3 g => rfl
  · rw [pipelineRun_original_eq]
    cases u with
    | undecodable d => exact ⟨rfl, rfl, rfl, rfl⟩
    | valid image =>
        simp only [decodeUpload, okBindE]
        cases reduceToGray (toNpArray image) with
        | error e => exact ⟨rfl, rfl, rfl, rfl⟩
        | ok g => exact ⟨rfl, rfl, rfl, rfl⟩

/-! ## C7: edge detection is single-channel and rescaled -/

theorem yU8_bounds {r g b : ℚ} (hr : 0 ≤ r ∧ r ≤ 255) (hg : 0 ≤ g ∧ g ≤ 255)
    (hb : 0 ≤ b ∧ b ≤ 255) : 0 ≤ yU8 r g b ∧ yU8 r g b ≤ 255 := by
  unfold yU8
  rw [qfloor_eq_floor]
  constructor
  · have h0 : (0 : ℚ) ≤ (r * 4899 + g * 9617 + b * 1868 + 8192) / 16384 := by
      have : (0 : ℚ) ≤ r * 4899 + g * 9617 + b * 1868 + 8192 := by nlinarith [hr.1, hg.1, hb.1]
      positivity
    exact_mod_cast Int.floor_nonneg.mpr h0
  · have hq : (r * 4899 + g * 9617 + b * 1868 + 8192) / 16384 < 256 := by
      rw [div_lt_iff₀ (by norm_num : (0 : ℚ) < 16384)]
      nlinarith [hr.2, hg.2, hb.2]
    have hfl : ⌊(r * 4899 + g * 9617 + b * 1868 + 8192) / 16384⌋ < 256 :=
      Int.floor_lt.mpr (by exact_mod_cast hq)
    exact_mod_cast (by omega : ⌊(r * 4899 + g * 9617 + b * 1868 + 8192) / 16384⌋ ≤ 255)

/-- The gray reduction succeeds on the shapes the application can produce and
    returns an 8-bit valued array of the same height and width. -/
theorem reduceToGray_bounds (a : NpArray) (hc : a.channelsOK) (h8 : a.uint8) :
    ∃ g : Grid2, reduceToGray a = .ok g ∧ g.h = a.hgt ∧ g.w = a.wid ∧
      ∀ i j, 0 ≤ g.val i j ∧ g.val i j ≤ 255 := by
  cases a with
  | d2 g => exact ⟨g, rfl, rfl, rfl, h8⟩
  | d3 g =>
      have hc3 : g.c = 3 ∨ g.c = 4 := hc
      have h83 : ∀ i j k, 0 ≤ g.val i j k ∧ g.val i j k ≤ 255 := h8
      simp only [reduceToGray]
      unfold cvtColorRGB2GRAY
      rw [dif_pos hc3]
      exact ⟨_, rfl, rfl, rfl, fun i j =>
        yU8_bounds (h83 i j _) (h83 i j _) (h83 i j _)⟩

theorem getReflect_bounds (g : Grid2)
    (h : ∀ (i : Fin g.h) (j : Fin g.w), 0 ≤ g.val i j ∧ g.val i j ≤ 1) (i j : ℤ) :
    0 ≤ g.getReflect i j ∧ g.getReflect i j ≤ 1 := by
  unfold Grid2.getReflect
  split
  · exact h _ _
  · norm_num

theorem imgAsFloat_bounds (g : Grid2)
    (h8 : ∀ i j, 0 ≤ g.val i j ∧ g.val i j ≤ 255) :
    ∀ (i : Fin (imgAsFloat g).h) (j : Fin (imgAsFloat g).w),
      0 ≤ (imgAsFloat g).val i j ∧ (imgAsFloat g).val i j ≤ 1 := by
  intro i j
  show 0 ≤ g.val i j / 255 ∧ g.val i j / 255 ≤ 1
  constructor
  · exact div_nonneg (h8 i j).1 (by norm_num)
  · rw [div_le_one (by norm_num : (0 : ℚ) < 255)]
    exact (h8 i j).2

theorem smooth1_bounds (g : Grid2)
    (h : ∀ i j : ℤ, 0 ≤ g.getReflect i j ∧ g.getReflect i j ≤ 1) (i j : ℤ) :
    0 ≤ smooth1 g i j ∧ smooth1 g i j ≤ 1 := by
  unfold smooth1
  obtain ⟨a1, a2⟩ := h i (j - 1)
  obtain ⟨b1, b2⟩ := h i j
  obtain ⟨c1, c2⟩ := h i (j + 1)
  constructor <;> linarith

theorem smooth0_bounds (g : Grid2)
    (h : ∀ i j : ℤ, 0 ≤ g.getReflect i j ∧ g.getReflect i j ≤ 1) (i j : ℤ) :
    0 ≤ smooth0 g i j ∧ smooth0 g i j ≤ 1 := by
  unfold smooth0
  obtain ⟨a1, a2⟩ := h (i - 1) j
  obtain ⟨b1, b2⟩ := h i j
  obtain ⟨c1, c2⟩ := h (i + 1) j
  constructor <;> linarith

theorem sobelAxis0_sq_le (g : Grid2)
    (h : ∀ i j : ℤ, 0 ≤ g.getReflect i j ∧ g.getReflect i j ≤ 1) (i j : ℤ) :
    sobelAxis0 g i j ^ 2 ≤ 1 := by
  unfold sobelAxis0
  obtain ⟨p1, p2⟩ := smooth1_bounds g h (i + 1) j
  obtain ⟨q1, q2⟩ := smooth1_bounds g h (i - 1) j
  nlinarith [mul_nonneg (by linarith : (0 : ℚ) ≤ 1 - smooth1 g (i + 1) j + smooth1 g (i - 1) j)
    (by linarith : (0 : ℚ) ≤ 1 + smooth1 g (i + 1) j - smooth1 g (i - 1) j)]

theorem sobelAxis1_sq_le (g : Grid2)
    (h : ∀ i j : ℤ, 0 ≤ g.getReflect i j ∧ g.getReflect i j ≤ 1) (i j : ℤ) :
    sobelAxis1 g i j ^ 2 ≤ 1 := by
  unfold sobelAxis1
  obtain ⟨p1, p2⟩ := smooth0_bounds g h i (j + 1)
  obtain ⟨q1, q2⟩ := smooth0_bounds g h i (j - 1)
  nlinarith [mul_nonneg (by linarith : (0 : ℚ) ≤ 1 - smooth0 g i (j + 1) + smooth0 g i (j - 1))
    (by linarith : (0 : ℚ) ≤ 1 + smooth0 g i (j + 1) - smooth0 g i (j - 1))]

/-- On an 8-bit gray input, every squared sobel magnitude lies in [0, 1]. -/
theorem sobelMagSq_bounds (g : Grid2)
    (h8 : ∀ i j, 0 ≤ g.val i j ∧ g.val i j ≤ 255) (i j : ℤ) :
    0 ≤ sobelMagSq g i j ∧ sobelMagSq g i j ≤ 1 := by
  have hr : ∀ i j : ℤ, 0 ≤ (imgAsFloat g).getReflect i j ∧ (imgAsFloat g).getReflect i j ≤ 1 :=
    getReflect_bounds (imgAsFloat g) (imgAsFloat_bounds g h8)
  have h0 := sobelAxis0_sq_le (imgAsFloat g) hr i j
  have h1 := sobelAxis1_sq_le (imgAsFloat g) hr i j
  unfold sobelMagSq
  constructor
  · positivity
  · linarith

/-- C7: for every input, color or already gray, the Edge Detection branch
    first reduces to single-channel gray and then filters, so the processed
    array is 2-dimensional of the source height and width; every sobel
    magnitude (the square root of the stored squared value) lies in [0, 1],
    so the conversion multiplies by 255 before the uint8 cast and every
    resulting integer lies in [0, 255]; and the displayable image is
    constructed single-channel (mode L). -/
theorem claim_C7_edge_detection (a : NpArray) (hc : a.channelsOK) (h8 : a.uint8) :
    ∃ g : Grid2, reduceToGray a = .ok g ∧
      (NpArray.d2 (sobelMagSqGrid g)).shape = [a.hgt, a.wid] ∧
      (∀ (i : Fin (sobelMagSqGrid g).h) (j : Fin (sobelMagSqGrid g).w),
        0 ≤ Real.sqrt ((sobelMagSqGrid g).val i j : ℝ) ∧
          Real.sqrt ((sobelMagSqGrid g).val i j : ℝ) ≤ 1) ∧
      (listMax (NpArray.entries (.d2 (sobelMagSqGrid g))) ≤ 1) ∧
      (∀ (i : Fin (sobelMagSqGrid g).h) (j : Fin (sobelMagSqGrid g).w),
        0 ≤ ⌊Real.sqrt ((sobelMagSqGrid g).val i j : ℝ) * 255⌋ ∧
          ⌊Real.sqrt ((sobelMagSqGrid g).val i j : ℝ) * 255⌋ ≤ 255) ∧
      (∀ m : PMode, ∃ p,
        convert_array_to_pil (.d2 (sobelMagSqGrid g)) m = .ok p ∧ p.mode = .L) := by
  obtain ⟨g, hg, gh, gw, hb⟩ := reduceToGray_bounds a hc h8
  have hmag : ∀ (i j : ℤ), 0 ≤ sobelMagSq g i j ∧ sobelMagSq g i j ≤ 1 :=
    sobelMagSq_bounds g hb
  have hsq : ∀ (i : Fin (sobelMagSqGrid g).h) (j : Fin (sobelMagSqGrid g).w),
      0 ≤ Real.sqrt ((sobelMagSqGrid g).val i j : ℝ) ∧
        Real.sqrt ((sobelMagSqGrid g).val i j : ℝ) ≤ 1 := by
    intro i j
    refine ⟨Real.sqrt_nonneg _, Real.sqrt_le_one.mpr ?_⟩
    have := (hmag i j).2
    exact_mod_cast this
  refine ⟨g, hg, ?_, hsq, ?_, ?_, fun m => ⟨_, rfl, rfl⟩⟩
  · simp [NpArray.shape, sobelMagSqGrid, gh, gw]
  · refine listMax_le (by norm_num) _ ?_
    intro x hx
    simp only [NpArray.entries, Grid2.entries, List.mem_flatMap, List.mem_map] at hx
    obtain ⟨i, -, j, -, rfl⟩ := hx
    exact (hmag i j).2
  · intro i j
    obtain ⟨h0, h1⟩ := hsq i j
    constructor
    · exact Int.floor_nonneg.mpr (by positivity)
    · have hle : Real.sqrt ((sobelMagSqGrid g).val i j : ℝ) * 255 ≤ 255 := by nlinarith
      have : ⌊Real.sqrt ((sobelMagSqGrid g).val i j : ℝ) * 255⌋ < 256 :=
        Int.floor_lt.mpr (lt_of_le_of_lt hle (by norm_num))
      omega

theorem claim_C7_witness :
    ∃ g : Grid2, reduceToGray (.d2 zeroGrid2) = .ok g ∧
      (NpArray.d2 (sobelMagSqGrid g)).shape =
        [(NpArray.d2 zeroGrid2).hgt, (NpArray.d2 zeroGrid2).wid] := by
  obtain ⟨g, hg, hs, -⟩ :=
    claim_C7_edge_detection (.d2 zeroGrid2) trivial
      (fun _ _ => ⟨le_refl 0, by show (0 : ℚ) ≤ 255; norm_num⟩)
  exact ⟨g, hg, hs⟩

/-! ## C1: RGBA sources and the JPEG download -/

/-- The Grayscale pass through the pipeline, unfolded into its effectful
    steps. -/
theorem pipelineRun_grayscale_eq (img : PILImage) (f : ℚ) :
    pipelineRun (.valid img) .Grayscale f =
      (grayscalePolicy (toNpArray img)).bind fun processed_img =>
        (convert_array_to_pil processed_img .L).bind fun processed_pil =>
          (pngSaveChannels processed_pil.mode).bind fun png =>
            (jpegDownload processed_pil).bind fun jpg =>
              (reduceToGray (toNpArray img)).bind fun gray_for_stats =>
                (reduceToGray processed_img).bind fun processed_gray =>
                  Except.ok { processedMode := processed_pil.mode,
                              pngChannels := some png, jpegChannels := some jpg,
                              origGray := gray_for_stats,
                              procGray := processed_gray,
                              procStatsShown := showProcessedStats .Grayscale } := by
  simp only [pipelineRun, decodeUpload, okBind]
  cases grayscalePolicy (toNpArray img) with
  | error e => rfl
  | ok processed_img =>
      cases convert_array_to_pil processed_img .L with
      | error e => rfl
      | ok processed_pil =>
          cases jpegDownload processed_pil with
          | error e => rfl
          | ok jpg =>
              cases reduceToGray (toNpArray img) with
              | error e => rfl
              | ok gray_for_stats =>
                  cases reduceToGray processed_img with
                  | error e => rfl
                  | ok processed_gray => rfl

/-- The Edge Detection pass through the pipeline, unfolded into its effectful
    steps. -/
theorem pipelineRun_edge_eq (img : PILImage) (f : ℚ) :
    pipelineRun (.valid img) .EdgeDetection f =
      (reduceToGray (toNpArray img)).bind fun gray_img =>
        (convert_array_to_pil (.d2 (sobelMagSqGrid gray_img)) .L).bind fun processed_pil =>
          (pngSaveChannels processed_pil.mode).bind fun png =>
            (jpegDownload processed_pil).bind fun jpg =>
              (reduceToGray (toNpArray img)).bind fun gray_for_stats =>
                (reduceToGray (.d2 (sobelMagSqGrid gray_img))).bind fun processed_gray =>
                  Except.ok { processedMode := processed_pil.mode,
                              pngChannels := some png, jpegChannels := some jpg,
                              origGray := gray_for_stats,
                              procGray := processed_gray,
                              procStatsShown := showProcessedStats .EdgeDetection } := by
  simp only [pipelineRun, decodeUpload, okBind]
  cases reduceToGray (toNpArray img) with
  | error e => rfl
  | ok gray_img =>
      cases convert_array_to_pil (.d2 (sobelMagSqGrid gray_img)) .L with
      | error e => rfl
      | ok processed_pil =>
          cases jpegDownload processed_pil with
          | error e => rfl
          | ok jpg => rfl

/-- C1: for every RGBA source image, under Grayscale as well as under Edge
    Detection the pipeline run succeeds, the processed image is
    single-channel (mode L), and the JPEG download is produced with encoded
    bytes that decode to a 1-channel image — never 4 channels, the alpha
    channel is gone. -/
theorem claim_C1_rgba_jpeg (img : PILImage) (hm : img.mode = .RGBA) (f : ℚ) :
    (∃ o : RunOutput, pipelineRun (.valid img) .Grayscale f = .ok o ∧
      o.processedMode = .L ∧ o.jpegChannels = some 1) ∧
    (∃ o : RunOutput, pipelineRun (.valid img) .EdgeDetection f = .ok o ∧
      o.processedMode = .L ∧ o.jpegChannels = some 1) := by
  have hnL : ¬ img.mode = .L := by rw [hm]; decide
  have h4 : img.mode.channels = 3 ∨ img.mode.channels = 4 := by rw [hm]; right; rfl
  have harr : toNpArray img =
      .d3 ⟨img.h, img.w, img.mode.channels, fun i j b => (img.val i j b : ℚ)⟩ := by
    unfold toNpArray; rw [dif_neg hnL]
  have hcv : ∃ g2, cvtColorRGB2GRAY
      ⟨img.h, img.w, img.mode.channels, fun i j b => (img.val i j b : ℚ)⟩ = .ok g2 := by
    unfold cvtColorRGB2GRAY; rw [dif_pos h4]; exact ⟨_, rfl⟩
  obtain ⟨g2, hg2⟩ := hcv
  have hgp : grayscalePolicy
      (.d3 ⟨img.h, img.w, img.mode.channels, fun i j b => (img.val i j b : ℚ)⟩) =
      .ok (.d2 g2) := by
    show (cvtColorRGB2GRAY _).map NpArray.d2 = _
    rw [hg2]; rfl
  have hrg : reduceToGray
      (.d3 ⟨img.h, img.w, img.mode.channels, fun i j b => (img.val i j b : ℚ)⟩) =
      .ok g2 := by
    show cvtColorRGB2GRAY _ = _
    exact hg2
  constructor
  · rw [pipelineRun_grayscale_eq, harr, hgp, hrg, okBindE]
    exact ⟨_, rfl, rfl, rfl⟩
  · rw [pipelineRun_edge_eq, harr, hrg, okBindE]
    exact ⟨_, rfl, rfl, rfl⟩

theorem claim_C1_witness :
    ∃ o : RunOutput, pipelineRun (.valid rgbaOnePix) .Grayscale 1 = .ok o ∧
      o.processedMode = .L ∧ o.jpegChannels = some 1 :=
  (claim_C1_rgba_jpeg rgbaOnePix rfl 1).1

/-! ## C9: the single top-level error boundary -/

/-- C9: every failure of the pipeline — decode, dispatch, export or
    statistics — reaches the one except handler, which renders the failure
    description prefixed by the fixed error line together with the fixed
    recovery hint; every interaction renders something (no failure ends the
    process); and each interaction is an independent rerun of the whole
    script, so a run after any history renders exactly what a fresh run on
    the same input renders. -/
theorem claim_C9_error_boundary :
    (∀ (u : Upload) (pt : ProcessType) (f : ℚ) (e : String),
      pipelineRun u pt f = .error e →
        renderApp (some (u, pt, f)) =
          .errorView ("Error processing image: " ++ e)
            "Please try uploading a different image or check the file format.") ∧
    (∀ s : Option (Upload × ProcessType × ℚ),
      (∃ m, renderApp s = .emptyState m) ∨ (∃ o, renderApp s = .page o) ∨
        (∃ m hint, renderApp s = .errorView m hint)) ∧
    (∀ (hist : List (Option (Upload × ProcessType × ℚ)))
        (s : Option (Upload × ProcessType × ℚ)),
      runSession (hist ++ [s]) = runSession hist ++ [renderApp s]) := by
  refine ⟨fun u pt f e he => ?_, fun s => ?_, fun hist s => ?_⟩
  · simp only [renderApp, he]
  · match s with
    | none => exact Or.inl ⟨_, rfl⟩
    | some (u, pt, f) =>
        cases hp : pipelineRun u pt f with
        | ok o => exact Or.inr (Or.inl ⟨o, by simp only [renderApp, hp]⟩)
        | error e =>
            exact Or.inr (Or.inr ⟨"Error processing image: " ++ e,
              "Please try uploading a different image or check the file format.",
              by simp only [renderApp, hp]⟩)
  · simp [runSession]

theorem claim_C9_witness :
    renderApp (some (.undecodable "cannot identify image file", .Original, 1)) =
      .errorView ("Error processing image: " ++ "cannot identify image file")
        "Please try uploading a different image or check the file format." :=
  claim_C9_error_boundary.1 _ _ _ _ rfl
